import Mathlib

/-!
Verification development for the ForgeLLM repository.

The repository ships a React frontend (pages for auth, datasets, training,
models, inference) together with a natural-language design document for the
training-job orchestration and artifact-lifecycle core.  The frontend code is
embedded here directly; components of the core that are described by the
design document but whose implementation is not part of the repository
snapshot (admission scheduler, artifact registry, progress channel, inference
cache) are modelled from the document's own words, and each such definition
says so in its doc comment.
-/

set_option maxHeartbeats 1000000

/-- The status union of the `TrainingJob` interface in the Training page:
`'pending' | 'queued' | 'running' | 'completed' | 'failed'`. -/
inductive JobStatus where
  | pending
  | queued
  | running
  | completed
  | failed
deriving DecidableEq, Repr

/-- The `statusIcons` record of the Training page, as a total function:
every status of the union is mapped to an icon, no status outside the union
is representable. -/
def statusIcon : JobStatus → String
  | .pending => "Clock"
  | .queued => "Clock"
  | .running => "Loader2"
  | .completed => "CheckCircle"
  | .failed => "XCircle"

/-- The `statusColors` record of the Training page. -/
def statusColor : JobStatus → String
  | .pending => "text-yellow-400 bg-yellow-500/20"
  | .queued => "text-yellow-400 bg-yellow-500/20"
  | .running => "text-blue-400 bg-blue-500/20"
  | .completed => "text-green-400 bg-green-500/20"
  | .failed => "text-red-400 bg-red-500/20"

/-- The `TrainingJob` interface of the Training page (numeric fields as
naturals/integers; the optional `current_step` / `total_steps` fields default
to 0 when absent). -/
structure TrainingJob where
  id : Nat
  name : String
  status : JobStatus
  dataset_id : Nat
  base_model : String
  current_step : Nat
  total_steps : Nat
  lora_r : Int
  lora_alpha : Int
  created_at : String
deriving DecidableEq, Repr

/-- The `Workspace` interface of the auth context. -/
structure Workspace where
  id : Nat
  name : String
deriving DecidableEq, Repr

/-- The `Dataset` interface of the Datasets page. -/
structure Dataset where
  id : Nat
  name : String
  filename : String
  size : Nat
  row_count : Nat
  created_at : String
deriving DecidableEq, Repr

/-- The `Model` interface of the Models page (a model artifact; `metrics`
flattened into `loss` and optional `accuracy`). -/
structure Model where
  id : Nat
  name : String
  base_model : String
  training_job_id : Nat
  adapter_path : String
  created_at : String
  loss : ℚ
  accuracy : Option ℚ
deriving DecidableEq, Repr

/-- The predicate inside `jobs.some(...)` of the Training page auto-refresh
effect: a job counts as active when its status is running, queued or
pending. -/
def isActiveJob (j : TrainingJob) : Bool :=
  j.status == .running || j.status == .queued || j.status == .pending

/-- Definition `hasActiveJobs` of the Training page auto-refresh effect. -/
def hasActiveJobs (jobs : List TrainingJob) : Bool :=
  jobs.any isActiveJob

/-- Whether the Training page auto-refresh effect installs its interval:
the effect body is `if (!hasActiveJobs || !workspace) return` followed by
`setInterval(fetchJobs, 2000)`, so the interval is installed exactly when
the guard does not return early. -/
def autoRefreshActive (jobs : List TrainingJob) (workspace : Option Workspace) : Bool :=
  !(!hasActiveJobs jobs || workspace.isNone)

/-- The fixed auto-refresh period of the Training page, in milliseconds. -/
def autoRefreshIntervalMs : Nat := 2000

/-- A terminal job status (neither of the active ones). -/
def isTerminalJob (j : TrainingJob) : Bool :=
  j.status == .completed || j.status == .failed

/-- The numeric training-configuration fields of the new-job form on the
Training page.  The learning rate is a decimal number, embedded as a
rational. -/
structure TrainingFormConfig where
  epochs : Int
  learning_rate : ℚ
  lora_r : Int
  lora_alpha : Int
deriving DecidableEq, Repr

/-- The stepMismatch constraint of the learning-rate input: the input
declares step 0.0001 together with min 0.00001, and under HTML constraint
validation the step base is the min, so a submittable value differs from
0.00001 by an integral multiple of 0.0001 — that is, (value - 0.00001) /
0.0001 is an integer (denominator 1 as a reduced rational). -/
def lrStepValid (lr : ℚ) : Bool :=
  decide (((lr - (1 : ℚ)/100000) * 10000).den = 1)

/-- The constraint validation the new-job form enforces through the
`min` / `max` / `step` attributes of its number inputs: epochs in [1, 10],
learning rate in [0.00001, 0.01] and on the step grid 0.00001 + k * 0.0001,
LoRA rank in [4, 64], LoRA alpha in [8, 128].  The integer inputs carry no
`step` attribute, so their default step of 1 is captured by their integer
type here.  A form whose inputs violate these constraints fails browser
constraint validation and its submit handler never runs. -/
def trainingFormValid (c : TrainingFormConfig) : Bool :=
  decide (1 ≤ c.epochs) && decide (c.epochs ≤ 10) &&
  decide ((1 : ℚ)/100000 ≤ c.learning_rate) && decide (c.learning_rate ≤ (1 : ℚ)/100) &&
  lrStepValid c.learning_rate &&
  decide (4 ≤ c.lora_r) && decide (c.lora_r ≤ 64) &&
  decide (8 ≤ c.lora_alpha) && decide (c.lora_alpha ≤ 128)

/-- The request body of `POST /api/v1/training/start` issued by
`handleSubmit` of the Training page (the configuration nested under
`config`). -/
structure StartTrainingRequest where
  workspace_id : Nat
  config : TrainingFormConfig
deriving DecidableEq, Repr

/-- The submission pipeline of the new-job form: browser constraint
validation of the number inputs runs first, then `handleSubmit`, which
returns early when no workspace is selected and otherwise posts the start
request.  Returns the issued request, or `none` when the submission is
rejected before any request is issued. -/
def submitTrainingForm (workspace : Option Workspace) (c : TrainingFormConfig) :
    Option StartTrainingRequest :=
  if trainingFormValid c then
    match workspace with
    | some w => some { workspace_id := w.id, config := c }
    | none => none
  else none

/-- The rank range the design document states for the training
configuration: rank in [1, 256].  Stated from the document's words, to be
compared with the range the form actually enforces. -/
def specClaimedRankValid (r : Int) : Bool :=
  decide (1 ≤ r) && decide (r ≤ 256)

/-- What the `ProtectedRoute` component renders. -/
inductive RouteRender where
  | navigateToLogin (replace : Bool)
  | renderChildren
deriving DecidableEq, Repr

/-- JavaScript truthiness of the `token` value of the auth context, whose
type is `string | null`: `!token` is true exactly when the token is `null`
or the empty string. -/
def jsFalsyString : Option String → Bool
  | none => true
  | some s => s.isEmpty

/-- The `ProtectedRoute` component: `if (!token) return <Navigate
to="/login" replace />; return children`. -/
def protectedRoute (token : Option String) : RouteRender :=
  if jsFalsyString token then .navigateToLogin true else .renderChildren

/-- A file of the drag-and-drop `DataTransfer` list of the Datasets page. -/
structure DropFile where
  name : String
deriving DecidableEq, Repr

/-- The upload request `handleUpload` posts to
`POST /api/v1/datasets/upload?workspace_id=...`. -/
structure UploadRequest where
  workspace_id : Nat
  filename : String
deriving DecidableEq, Repr

/-- Handler `handleUpload` of the Datasets page: returns early when no workspace is
selected, otherwise issues the upload request for the file. -/
def handleUpload (workspace : Option Workspace) (file : DropFile) : Option UploadRequest :=
  match workspace with
  | none => none
  | some w => some { workspace_id := w.id, filename := file.name }

/-- JavaScript `String.prototype.endsWith`: the string ends with the given
search string, checked on the character sequence. -/
def strEndsWith (s suffix : String) : Bool :=
  suffix.data.isSuffixOf s.data

/-- Handler `handleDrop` of the Datasets page: takes `e.dataTransfer.files[0]`, and
calls `handleUpload` exactly when that file exists and its name ends with
".jsonl".  Returns the upload request issued (if any) together with the
dataset list as it stands when the handler finishes (the handler itself
never touches the list). -/
def handleDrop (workspace : Option Workspace) (files : List DropFile)
    (datasets : List Dataset) : Option UploadRequest × List Dataset :=
  match files.head? with
  | none => (none, datasets)
  | some f =>
    if strEndsWith f.name ".jsonl" then (handleUpload workspace f, datasets)
    else (none, datasets)

/-- The state update `handleDelete` of the Models page applies after a
successful `DELETE /api/v1/models/:id`: it filters the deleted id out of
the local model list. -/
def handleDeleteModels (models : List Model) (id : Nat) : List Model :=
  models.filter (fun m => m.id != id)

/-- Modelled from the spec: the edge relation of the job state machine of
the design document — `pending → queued` (slot free), `queued → running`
(handle acquired), `queued → failed` (launch error), `running → completed`,
`running → failed`, and cancellation of a non-terminal job as a `failed`
variant (`pending → failed`, `queued → failed`).  The backend state machine
itself is not part of the repository snapshot. -/
def stateMachineEdge (s t : JobStatus) : Bool :=
  match s, t with
  | .pending, .queued => true
  | .queued, .running => true
  | .queued, .failed => true
  | .running, .completed => true
  | .running, .failed => true
  | .pending, .failed => true
  | _, _ => false

/-- Modelled from the spec: the Artifact Registry contract
`register(job_id, storage_location, metrics) -> ModelArtifact`, idempotent
per job id — when an artifact for the job already exists it is returned
unchanged, otherwise a fresh artifact is recorded.  The registry service is
not part of the repository snapshot; the artifact record shape follows the
`Model` interface of the Models page. -/
def registerArtifact (arts : List Model) (j : TrainingJob) (loc : String) (loss : ℚ) :
    Model × List Model :=
  match arts.find? (fun a => a.training_job_id == j.id) with
  | some a => (a, arts)
  | none =>
    let a : Model :=
      { id := arts.length, name := j.name, base_model := j.base_model,
        training_job_id := j.id, adapter_path := loc, created_at := j.created_at,
        loss := loss, accuracy := none }
    (a, a :: arts)

/-- Number of registered artifacts whose `training_job_id` is the given job
id. -/
def artifactCount (arts : List Model) (jid : Nat) : Nat :=
  (arts.filter (fun a => a.training_job_id == jid)).length

/-- Modelled from the spec: the state of the orchestration core — the job
records, the worker slots (each holding at most one occupant job id, empty
slots hold nothing), and the artifact registry.  The scheduler is not part
of the repository snapshot. -/
structure SchedState where
  jobs : List TrainingJob
  slots : List (Option Nat)
  artifacts : List Model
deriving DecidableEq, Repr

/-- Modelled from the spec: the transitions of the orchestration core.
Submission persists a fresh `pending` job; `pending → queued` requires a
free slot; `queued → running` binds the job to a free slot; completion
registers the artifact before marking the job `completed` and frees the
slot; a running failure frees the slot; launch errors and cancellations
fail a queued or pending job without ever touching a slot.  No transition
mutates a terminal job. -/
inductive SchedStep : SchedState → SchedState → Prop where
  | submit (jobs : List TrainingJob) (slots : List (Option Nat)) (arts : List Model)
      (j : TrainingJob) (hp : j.status = JobStatus.pending)
      (hfresh : ∀ k ∈ jobs, k.id ≠ j.id) :
      SchedStep ⟨jobs, slots, arts⟩ ⟨jobs ++ [j], slots, arts⟩
  | promote (a b : List TrainingJob) (slots : List (Option Nat)) (arts : List Model)
      (j : TrainingJob) (hp : j.status = JobStatus.pending)
      (i : Nat) (hfree : slots.get? i = some none) :
      SchedStep ⟨a ++ j :: b, slots, arts⟩
        ⟨a ++ { j with status := JobStatus.queued } :: b, slots, arts⟩
  | run (a b : List TrainingJob) (slots : List (Option Nat)) (arts : List Model)
      (j : TrainingJob) (hq : j.status = JobStatus.queued)
      (i : Nat) (hfree : slots.get? i = some none) :
      SchedStep ⟨a ++ j :: b, slots, arts⟩
        ⟨a ++ { j with status := JobStatus.running } :: b, slots.set i (some j.id), arts⟩
  | complete (a b : List TrainingJob) (slots : List (Option Nat)) (arts : List Model)
      (j : TrainingJob) (hr : j.status = JobStatus.running)
      (i : Nat) (hocc : slots.get? i = some (some j.id)) (loc : String) (loss : ℚ) :
      SchedStep ⟨a ++ j :: b, slots, arts⟩
        ⟨a ++ { j with status := JobStatus.completed } :: b, slots.set i none,
          (registerArtifact arts j loc loss).2⟩
  | failRunning (a b : List TrainingJob) (slots : List (Option Nat)) (arts : List Model)
      (j : TrainingJob) (hr : j.status = JobStatus.running)
      (i : Nat) (hocc : slots.get? i = some (some j.id)) :
      SchedStep ⟨a ++ j :: b, slots, arts⟩
        ⟨a ++ { j with status := JobStatus.failed } :: b, slots.set i none, arts⟩
  | cancelPending (a b : List TrainingJob) (slots : List (Option Nat)) (arts : List Model)
      (j : TrainingJob) (hp : j.status = JobStatus.pending) :
      SchedStep ⟨a ++ j :: b, slots, arts⟩
        ⟨a ++ { j with status := JobStatus.failed } :: b, slots, arts⟩
  | failQueued (a b : List TrainingJob) (slots : List (Option Nat)) (arts : List Model)
      (j : TrainingJob) (hq : j.status = JobStatus.queued) :
      SchedStep ⟨a ++ j :: b, slots, arts⟩
        ⟨a ++ { j with status := JobStatus.failed } :: b, slots, arts⟩

/-- The initial core state with `n` configured (empty) worker slots. -/
def initState (n : Nat) : SchedState :=
  ⟨[], List.replicate n none, []⟩

/-- Reachability of a core state through the scheduler transitions. -/
def SchedReachable (n : Nat) (st : SchedState) : Prop :=
  Relation.ReflTransGen SchedStep (initState n) st

/-- Number of job records currently in status `running`. -/
def countRunning (jobs : List TrainingJob) : Nat :=
  (jobs.filter (fun j => j.status == JobStatus.running)).length

/-- Number of occupied worker slots. -/
def countOccupied (slots : List (Option Nat)) : Nat :=
  (slots.filter Option.isSome).length

/-- Modelled from the spec: applying a progress update of the Progress
Channel to the recorded `current_step` — a later update with a smaller
step than the previously recorded one is discarded.  The progress channel
is not part of the repository snapshot. -/
def applyProgress (stored incoming : Nat) : Nat :=
  if incoming < stored then stored else incoming

/-- Modelled from the spec: a progress update applied to a whole job
record, discarding out-of-order steps. -/
def recordProgress (j : TrainingJob) (step : Nat) : TrainingJob :=
  if step < j.current_step then j else { j with current_step := step }

/-- Modelled from the spec: the state of an inference-cache entry — either
a pending single-flight placeholder (counting the callers awaiting it) or a
loaded adapter. -/
inductive CacheEntryState where
  | pendingLoad (waiters : Nat)
  | loaded
deriving DecidableEq, Repr

/-- Modelled from the spec: the inference cache keyed by model id, an
external-load operation counter, and a counter of callers that returned
successfully.  The inference resolver is not part of the repository
snapshot. -/
structure InferenceCache where
  entries : List (Nat × CacheEntryState)
  loadCount : Nat
  served : Nat
deriving DecidableEq, Repr

/-- Lookup of a cache entry by model id. -/
def cacheLookup (entries : List (Nat × CacheEntryState)) (id : Nat) : Option CacheEntryState :=
  List.lookup id entries

/-- Replace the entry stored under the given model id. -/
def cacheUpdate (entries : List (Nat × CacheEntryState)) (id : Nat) (s : CacheEntryState) :
    List (Nat × CacheEntryState) :=
  entries.map (fun e => if e.1 == id then (e.1, s) else e)

/-- Modelled from the spec: one `resolve` caller arriving at the cache.  On
a miss the caller installs the pending placeholder and triggers the single
load; on a pending placeholder the caller joins the waiters rather than
reloading; on a loaded entry the caller returns at once. -/
def cacheResolveArrive (st : InferenceCache) (id : Nat) : InferenceCache :=
  match cacheLookup st.entries id with
  | none =>
      { st with entries := (id, CacheEntryState.pendingLoad 1) :: st.entries,
                loadCount := st.loadCount + 1 }
  | some (CacheEntryState.pendingLoad w) =>
      { st with entries := cacheUpdate st.entries id (CacheEntryState.pendingLoad (w + 1)) }
  | some CacheEntryState.loaded =>
      { st with served := st.served + 1 }

/-- Modelled from the spec: the single load operation completing — the
placeholder becomes a loaded entry and every waiter returns successfully. -/
def cacheLoadComplete (st : InferenceCache) (id : Nat) : InferenceCache :=
  match cacheLookup st.entries id with
  | some (CacheEntryState.pendingLoad w) =>
      { st with entries := cacheUpdate st.entries id CacheEntryState.loaded,
                served := st.served + w }
  | _ => st

/-- Iterated arrival of `n` concurrent `resolve` callers for the same model
id. -/
def arriveMany (st : InferenceCache) (id : Nat) : Nat → InferenceCache
  | 0 => st
  | Nat.succ k => cacheResolveArrive (arriveMany st id k) id

/-- Modelled from the spec: the artifact-lifecycle error taxonomy surfaced
to the caller as-is. -/
inductive ArtifactError where
  | notFound
  | inUse
deriving DecidableEq, Repr

/-- Modelled from the spec: the state `delete(id)` of the Artifact Registry
acts on — the artifact records, the stored payloads (by storage location),
the artifact ids currently served by an inference-cache entry, and the job
records. -/
structure ArtifactSystem where
  artifacts : List Model
  payloads : List String
  servingIds : List Nat
  jobRecords : List TrainingJob
deriving DecidableEq, Repr

/-- Modelled from the spec: `delete(id)` of the Artifact Registry — fails
with `NotFound` when no artifact has the id, fails with `InUse` when an
inference-cache entry is currently serving the artifact, and otherwise
removes the artifact record together with its stored payload while leaving
the job records untouched.  The registry service is not part of the
repository snapshot. -/
def deleteArtifact (st : ArtifactSystem) (id : Nat) : Except ArtifactError ArtifactSystem :=
  match st.artifacts.find? (fun a => a.id == id) with
  | none => Except.error ArtifactError.notFound
  | some a =>
    if st.servingIds.contains id then Except.error ArtifactError.inUse
    else Except.ok
      { st with artifacts := st.artifacts.filter (fun m => m.id != id),
                payloads := st.payloads.filter (fun p => p != a.adapter_path) }

/-- The inductive invariant of the orchestration core: job ids are unique,
the number of running jobs equals the number of occupied slots, and the
artifact registry holds exactly one artifact for each completed job and
none for any other job id. -/
def SchedInv (st : SchedState) : Prop :=
  (st.jobs.map TrainingJob.id).Nodup ∧
  countRunning st.jobs = countOccupied st.slots ∧
  (∀ jid, (∃ j ∈ st.jobs, j.id = jid ∧ j.status = JobStatus.completed) →
      artifactCount st.artifacts jid = 1) ∧
  (∀ jid, (¬ ∃ j ∈ st.jobs, j.id = jid ∧ j.status = JobStatus.completed) →
      artifactCount st.artifacts jid = 0)

/-- A concrete training job used by the closed witness statements. -/
def sampleJob : TrainingJob :=
  { id := 0, name := "job-a", status := JobStatus.pending, dataset_id := 1,
    base_model := "mistralai/Mistral-7B-v0.1", current_step := 0, total_steps := 0,
    lora_r := 16, lora_alpha := 32, created_at := "2026-01-01" }

theorem countRunning_append (l1 l2 : List TrainingJob) :
    countRunning (l1 ++ l2) = countRunning l1 + countRunning l2 := by
  simp [countRunning, List.filter_append]

theorem countRunning_cons (j : TrainingJob) (l : List TrainingJob) :
    countRunning (j :: l) =
      (if j.status = JobStatus.running then 1 else 0) + countRunning l := by
  simp only [countRunning, List.filter_cons]
  by_cases h : j.status = JobStatus.running <;> simp [h, Nat.add_comm]

theorem countOccupied_cons (s : Option Nat) (l : List (Option Nat)) :
    countOccupied (s :: l) = (if s.isSome then 1 else 0) + countOccupied l := by
  simp only [countOccupied, List.filter_cons]
  by_cases h : s.isSome <;> simp [h, Nat.add_comm]

theorem countOccupied_set_some (slots : List (Option Nat)) (i : Nat) (v : Nat)
    (h : slots.get? i = some none) :
    countOccupied (slots.set i (some v)) = countOccupied slots + 1 := by
  induction slots generalizing i with
  | nil => simp at h
  | cons s rest ih =>
    cases i with
    | zero =>
      simp only [List.get?] at h
      cases h
      simp [List.set, countOccupied_cons, Nat.add_comm]
    | succ k =>
      simp only [List.get?] at h
      simp only [List.set, countOccupied_cons, ih k h]
      omega

theorem countOccupied_set_none (slots : List (Option Nat)) (i : Nat) (v : Nat)
    (h : slots.get? i = some (some v)) :
    countOccupied slots = countOccupied (slots.set i none) + 1 := by
  induction slots generalizing i with
  | nil => simp at h
  | cons s rest ih =>
    cases i with
    | zero =>
      simp only [List.get?] at h
      cases h
      simp [List.set, countOccupied_cons, Nat.add_comm]
    | succ k =>
      simp only [List.get?] at h
      simp only [List.set, countOccupied_cons, ih k h]
      omega

theorem countOccupied_replicate_none (n : Nat) :
    countOccupied (List.replicate n none) = 0 := by
  induction n with
  | zero => rfl
  | succ m ih => simp [List.replicate, countOccupied_cons, ih]

theorem nodup_mid_id {a b : List TrainingJob} {j : TrainingJob}
    (h : ((a ++ j :: b).map TrainingJob.id).Nodup) :
    ∀ k ∈ a ++ b, k.id ≠ j.id := by
  rw [List.map_append, List.map_cons, List.nodup_append] at h
  obtain ⟨h1, h2, hdisj⟩ := h
  rw [List.nodup_cons] at h2
  intro k hk hkid
  rcases List.mem_append.1 hk with hka | hkb
  · exact hdisj (List.mem_map_of_mem TrainingJob.id hka)
      (hkid ▸ List.mem_cons_self _ _)
  · exact h2.1 (hkid ▸ List.mem_map_of_mem TrainingJob.id hkb)

theorem nodup_ids_mid_update {a b : List TrainingJob} {j : TrainingJob} (s : JobStatus)
    (h : ((a ++ j :: b).map TrainingJob.id).Nodup) :
    ((a ++ { j with status := s } :: b).map TrainingJob.id).Nodup := by
  simpa using h

theorem exists_completed_mid_congr {a b : List TrainingJob} {j j' : TrainingJob}
    (hj : j.status ≠ JobStatus.completed) (hj' : j'.status ≠ JobStatus.completed)
    (jid : Nat) :
    (∃ k ∈ a ++ j' :: b, k.id = jid ∧ k.status = JobStatus.completed) ↔
    (∃ k ∈ a ++ j :: b, k.id = jid ∧ k.status = JobStatus.completed) := by
  constructor
  · rintro ⟨k, hk, hkid, hkc⟩
    rcases List.mem_append.1 hk with hka | hkc2
    · exact ⟨k, List.mem_append.2 (Or.inl hka), hkid, hkc⟩
    · rcases List.mem_cons.1 hkc2 with rfl | hkb
      · exact absurd hkc hj'
      · exact ⟨k, List.mem_append.2 (Or.inr (List.mem_cons.2 (Or.inr hkb))), hkid, hkc⟩
  · rintro ⟨k, hk, hkid, hkc⟩
    rcases List.mem_append.1 hk with hka | hkc2
    · exact ⟨k, List.mem_append.2 (Or.inl hka), hkid, hkc⟩
    · rcases List.mem_cons.1 hkc2 with rfl | hkb
      · exact absurd hkc hj
      · exact ⟨k, List.mem_append.2 (Or.inr (List.mem_cons.2 (Or.inr hkb))), hkid, hkc⟩

theorem exists_completed_append_congr {jobs : List TrainingJob} {jnew : TrainingJob}
    (h : jnew.status ≠ JobStatus.completed) (jid : Nat) :
    (∃ k ∈ jobs ++ [jnew], k.id = jid ∧ k.status = JobStatus.completed) ↔
    (∃ k ∈ jobs, k.id = jid ∧ k.status = JobStatus.completed) := by
  constructor
  · rintro ⟨k, hk, hkid, hkc⟩
    rcases List.mem_append.1 hk with hka | hkb
    · exact ⟨k, hka, hkid, hkc⟩
    · rcases List.mem_cons.1 hkb with rfl | hk0
      · exact absurd hkc h
      · simp at hk0
  · rintro ⟨k, hk, hkid, hkc⟩
    exact ⟨k, List.mem_append.2 (Or.inl hk), hkid, hkc⟩

theorem find_none_of_artifactCount_zero {arts : List Model} {jid : Nat}
    (h : artifactCount arts jid = 0) :
    arts.find? (fun a => a.training_job_id == jid) = none := by
  rw [List.find?_eq_none]
  intro a ha hpa
  have hmem : a ∈ arts.filter (fun a => a.training_job_id == jid) :=
    List.mem_filter.2 ⟨ha, hpa⟩
  rw [artifactCount, List.length_eq_zero] at h
  rw [h] at hmem
  simp at hmem

theorem artifactCount_register {arts : List Model} {j : TrainingJob} {loc : String}
    {loss : ℚ} (hnone : arts.find? (fun a => a.training_job_id == j.id) = none)
    (jid : Nat) :
    artifactCount (registerArtifact arts j loc loss).2 jid =
      artifactCount arts jid + (if jid = j.id then 1 else 0) := by
  simp only [registerArtifact, hnone]
  simp only [artifactCount, List.filter_cons]
  by_cases h : jid = j.id
  · subst h
    simp
  · have : (j.id == jid) = false := by
      simp [Ne.symm h]
    simp [this, h]

theorem schedInv_init (n : Nat) : SchedInv (initState n) := by
  refine ⟨by simp [initState], ?_, ?_, ?_⟩
  · simp [initState, countRunning, countOccupied_replicate_none]
  · rintro jid ⟨j, hj, -, -⟩
    simp [initState] at hj
  · intro jid _
    simp [initState, artifactCount]

theorem schedInv_step {st st' : SchedState} (h : SchedInv st) (hs : SchedStep st st') :
    SchedInv st' := by
  cases hs with
  | submit jobs slots arts j hp hfresh =>
    obtain ⟨hnd, hcnt, hc1, hc0⟩ := h
    refine ⟨?_, ?_, ?_, ?_⟩
    · simp only [List.map_append, List.map_cons, List.map_nil]
      rw [List.nodup_append]
      refine ⟨hnd, List.nodup_singleton _, ?_⟩
      intro x hx hx2
      simp at hx2
      obtain ⟨k, hk, hkid⟩ := List.mem_map.1 hx
      exact hfresh k hk (hkid.trans hx2)
    · show countRunning (jobs ++ [j]) = countOccupied slots
      rw [countRunning_append, countRunning_cons]
      simpa [hp, countRunning] using hcnt
    · intro jid hex
      exact hc1 jid ((exists_completed_append_congr (by simp [hp]) jid).1 hex)
    · intro jid hnex
      refine hc0 jid ?_
      intro hex
      exact hnex ((exists_completed_append_congr (by simp [hp]) jid).2 hex)
  | promote a b slots arts j hp i hfree =>
    obtain ⟨hnd, hcnt, hc1, hc0⟩ := h
    refine ⟨nodup_ids_mid_update _ hnd, ?_, ?_, ?_⟩
    · show countRunning (a ++ { j with status := JobStatus.queued } :: b)
          = countOccupied slots
      rw [countRunning_append, countRunning_cons]
      rw [countRunning_append, countRunning_cons] at hcnt
      simpa [hp] using hcnt
    · intro jid hex
      exact hc1 jid ((exists_completed_mid_congr (by simp [hp]) (by simp) jid).1 hex)
    · intro jid hnex
      refine hc0 jid ?_
      intro hex
      exact hnex ((exists_completed_mid_congr (by simp [hp]) (by simp) jid).2 hex)
  | run a b slots arts j hq i hfree =>
    obtain ⟨hnd, hcnt, hc1, hc0⟩ := h
    refine ⟨nodup_ids_mid_update _ hnd, ?_, ?_, ?_⟩
    · have h1 : countRunning a + countRunning b = countOccupied slots := by
        rw [countRunning_append, countRunning_cons] at hcnt
        simpa [hq] using hcnt
      show countRunning (a ++ { j with status := JobStatus.running } :: b)
          = countOccupied (slots.set i (some j.id))
      rw [countRunning_append, countRunning_cons,
        countOccupied_set_some slots i j.id hfree]
      simp
      omega
    · intro jid hex
      exact hc1 jid ((exists_completed_mid_congr (by simp [hq]) (by simp) jid).1 hex)
    · intro jid hnex
      refine hc0 jid ?_
      intro hex
      exact hnex ((exists_completed_mid_congr (by simp [hq]) (by simp) jid).2 hex)
  | complete a b slots arts j hr i hocc loc loss =>
    obtain ⟨hnd, hcnt, hc1, hc0⟩ := h
    have hnoold : ¬ ∃ k ∈ a ++ j :: b, k.id = j.id ∧ k.status = JobStatus.completed := by
      rintro ⟨k, hk, hkid, hkc⟩
      rcases List.mem_append.1 hk with hka | hkc2
      · exact nodup_mid_id hnd k (List.mem_append.2 (Or.inl hka)) hkid
      · rcases List.mem_cons.1 hkc2 with rfl | hkb
        · rw [hr] at hkc
          cases hkc
        · exact nodup_mid_id hnd k (List.mem_append.2 (Or.inr hkb)) hkid
    have hold0 : artifactCount arts j.id = 0 := hc0 _ hnoold
    have hfindnone := find_none_of_artifactCount_zero hold0
    refine ⟨nodup_ids_mid_update _ hnd, ?_, ?_, ?_⟩
    · have h1 : countRunning a + (1 + countRunning b) = countOccupied slots := by
        rw [countRunning_append, countRunning_cons] at hcnt
        simpa [hr] using hcnt
      have h2 := countOccupied_set_none slots i j.id hocc
      show countRunning (a ++ { j with status := JobStatus.completed } :: b)
          = countOccupied (slots.set i none)
      rw [countRunning_append, countRunning_cons]
      simp
      omega
    · intro jid hex
      by_cases hjid : jid = j.id
      · subst hjid
        rw [artifactCount_register hfindnone]
        simp [hold0]
      · rw [artifactCount_register hfindnone]
        simp only [hjid, if_false, Nat.add_zero]
        apply hc1
        obtain ⟨k, hk, hkid, hkc⟩ := hex
        rcases List.mem_append.1 hk with hka | hkc2
        · exact ⟨k, List.mem_append.2 (Or.inl hka), hkid, hkc⟩
        · rcases List.mem_cons.1 hkc2 with rfl | hkb
          · exact absurd hkid.symm hjid
          · exact ⟨k, List.mem_append.2 (Or.inr (List.mem_cons.2 (Or.inr hkb))),
              hkid, hkc⟩
    · intro jid hnex
      by_cases hjid : jid = j.id
      · subst hjid
        refine absurd ?_ hnex
        exact ⟨{ j with status := JobStatus.completed },
          List.mem_append.2 (Or.inr (List.mem_cons_self _ _)), rfl, rfl⟩
      · rw [artifactCount_register hfindnone]
        simp only [hjid, if_false, Nat.add_zero]
        apply hc0
        intro hex
        apply hnex
        obtain ⟨k, hk, hkid, hkc⟩ := hex
        rcases List.mem_append.1 hk with hka | hkc2
        · exact ⟨k, List.mem_append.2 (Or.inl hka), hkid, hkc⟩
        · rcases List.mem_cons.1 hkc2 with rfl | hkb
          · rw [hr] at hkc
            cases hkc
          · exact ⟨k, List.mem_append.2 (Or.inr (List.mem_cons.2 (Or.inr hkb))),
              hkid, hkc⟩
  | failRunning a b slots arts j hr i hocc =>
    obtain ⟨hnd, hcnt, hc1, hc0⟩ := h
    refine ⟨nodup_ids_mid_update _ hnd, ?_, ?_, ?_⟩
    · have h1 : countRunning a + (1 + countRunning b) = countOccupied slots := by
        rw [countRunning_append, countRunning_cons] at hcnt
        simpa [hr] using hcnt
      have h2 := countOccupied_set_none slots i j.id hocc
      show countRunning (a ++ { j with status := JobStatus.failed } :: b)
          = countOccupied (slots.set i none)
      rw [countRunning_append, countRunning_cons]
      simp
      omega
    · intro jid hex
      exact hc1 jid ((exists_completed_mid_congr (by simp [hr]) (by simp) jid).1 hex)
    · intro jid hnex
      refine hc0 jid ?_
      intro hex
      exact hnex ((exists_completed_mid_congr (by simp [hr]) (by simp) jid).2 hex)
  | cancelPending a b slots arts j hp =>
    obtain ⟨hnd, hcnt, hc1, hc0⟩ := h
    refine ⟨nodup_ids_mid_update _ hnd, ?_, ?_, ?_⟩
    · show countRunning (a ++ { j with status := JobStatus.failed } :: b)
          = countOccupied slots
      rw [countRunning_append, countRunning_cons]
      rw [countRunning_append, countRunning_cons] at hcnt
      simpa [hp] using hcnt
    · intro jid hex
      exact hc1 jid ((exists_completed_mid_congr (by simp [hp]) (by simp) jid).1 hex)
    · intro jid hnex
      refine hc0 jid ?_
      intro hex
      exact hnex ((exists_completed_mid_congr (by simp [hp]) (by simp) jid).2 hex)
  | failQueued a b slots arts j hq =>
    obtain ⟨hnd, hcnt, hc1, hc0⟩ := h
    refine ⟨nodup_ids_mid_update _ hnd, ?_, ?_, ?_⟩
    · show countRunning (a ++ { j with status := JobStatus.failed } :: b)
          = countOccupied slots
      rw [countRunning_append, countRunning_cons]
      rw [countRunning_append, countRunning_cons] at hcnt
      simpa [hq] using hcnt
    · intro jid hex
      exact hc1 jid ((exists_completed_mid_congr (by simp [hq]) (by simp) jid).1 hex)
    · intro jid hnex
      refine hc0 jid ?_
      intro hex
      exact hnex ((exists_completed_mid_congr (by simp [hq]) (by simp) jid).2 hex)

theorem schedInv_reachable {n : Nat} {st : SchedState} (h : SchedReachable n st) :
    SchedInv st := by
  induction h with
  | refl => exact schedInv_init n
  | tail hsteps hstep ih => exact schedInv_step ih hstep

theorem slots_length_reachable {n : Nat} {st : SchedState} (h : SchedReachable n st) :
    st.slots.length = n := by
  induction h with
  | refl => simp [initState]
  | tail hsteps hstep ih =>
    cases hstep <;> simpa [List.length_set] using ih

theorem mid_update_status_aux {a b : List TrainingJob} {jm : TrainingJob}
    {t : JobStatus}
    (hnd' : ((a ++ { jm with status := t } :: b).map TrainingJob.id).Nodup)
    (hedge : stateMachineEdge jm.status t = true) :
    ∀ j ∈ a ++ jm :: b, ∀ j' ∈ a ++ { jm with status := t } :: b, j.id = j'.id →
      j.status = j'.status ∨ stateMachineEdge j.status j'.status = true := by
  intro j hj j' hj' hid
  rcases List.mem_append.1 hj with hja | hjc
  · have hjm' : j ∈ a ++ { jm with status := t } :: b :=
      List.mem_append.2 (Or.inl hja)
    have heq := List.inj_on_of_nodup_map hnd' hjm' hj' hid
    exact Or.inl (by rw [heq])
  · rcases List.mem_cons.1 hjc with rfl | hjb
    · have hm' : ({ j with status := t }) ∈ a ++ { j with status := t } :: b :=
        List.mem_append.2 (Or.inr (List.mem_cons_self _ _))
      have hid2 : ({ j with status := t }).id = j'.id := hid
      have heq := List.inj_on_of_nodup_map hnd' hm' hj' hid2
      rw [← heq]
      exact Or.inr hedge
    · have hjm' : j ∈ a ++ { jm with status := t } :: b :=
        List.mem_append.2 (Or.inr (List.mem_cons.2 (Or.inr hjb)))
      have heq := List.inj_on_of_nodup_map hnd' hjm' hj' hid
      exact Or.inl (by rw [heq])

/-- Claim C1: for every TrainingJob, the sequence of statuses it is observed
in is a valid path through the state machine of the design document — on
any scheduler step from a reachable state, a job either keeps its status or
moves along a state-machine edge (so observed status sequences are paths);
statuses are drawn from the closed five-status union of the frontend, a job
record carries exactly one status at a time, and the machine has no
`pending → running` edge, so a job can never skip `queued` (whether or not
slots are full). -/
theorem c1_status_sequences_follow_state_machine {n : Nat} {st st' : SchedState}
    (hreach : SchedReachable n st) (hstep : SchedStep st st') :
    (∀ j ∈ st.jobs, ∀ j' ∈ st'.jobs, j.id = j'.id →
        j.status = j'.status ∨ stateMachineEdge j.status j'.status = true) ∧
    stateMachineEdge JobStatus.pending JobStatus.running = false := by
  have hinv := schedInv_reachable hreach
  have hinv' := schedInv_step hinv hstep
  refine ⟨?_, rfl⟩
  cases hstep with
  | submit jobs slots arts jnew hp hfresh =>
    intro j hj j' hj' hid
    rcases List.mem_append.1 hj' with hj'old | hj'new
    · have heq := List.inj_on_of_nodup_map hinv.1 hj hj'old hid
      exact Or.inl (by rw [heq])
    · rcases List.mem_cons.1 hj'new with rfl | h0
      · exact absurd hid (hfresh j hj)
      · simp at h0
  | promote a b slots arts jm hp i hfree =>
    exact mid_update_status_aux hinv'.1 (by rw [hp]; rfl)
  | run a b slots arts jm hq i hfree =>
    exact mid_update_status_aux hinv'.1 (by rw [hq]; rfl)
  | complete a b slots arts jm hr i hocc loc loss =>
    exact mid_update_status_aux hinv'.1 (by rw [hr]; rfl)
  | failRunning a b slots arts jm hr i hocc =>
    exact mid_update_status_aux hinv'.1 (by rw [hr]; rfl)
  | cancelPending a b slots arts jm hp =>
    exact mid_update_status_aux hinv'.1 (by rw [hp]; rfl)
  | failQueued a b slots arts jm hq =>
    exact mid_update_status_aux hinv'.1 (by rw [hq]; rfl)

theorem c1_witness :
    (∀ j ∈ [sampleJob], ∀ j' ∈ [{ sampleJob with status := JobStatus.queued }],
        j.id = j'.id → j.status = j'.status ∨
          stateMachineEdge j.status j'.status = true) ∧
    stateMachineEdge JobStatus.pending JobStatus.running = false := by
  have h0 : SchedReachable 1 ⟨[sampleJob], [none], []⟩ :=
    Relation.ReflTransGen.single
      (SchedStep.submit [] [none] [] sampleJob rfl (by intro k hk; simp at hk))
  have h1 : SchedStep ⟨[sampleJob], [none], []⟩
      ⟨[{ sampleJob with status := JobStatus.queued }], [none], []⟩ :=
    SchedStep.promote [] [] [none] [] sampleJob rfl 0 rfl
  exact c1_status_sequences_follow_state_machine h0 h1

/-- Claim C2: at every reachable state of the orchestration core, the
number of TrainingJobs in status `running` is at most the configured
WorkerSlot count (and the slot list keeps its configured length); each slot
holds an `Option` occupant, so it is occupied by at most one job by
construction. -/
theorem c2_running_jobs_bounded_by_slots {n : Nat} {st : SchedState}
    (h : SchedReachable n st) :
    countRunning st.jobs ≤ n ∧ st.slots.length = n := by
  have hlen := slots_length_reachable h
  have hinv := schedInv_reachable h
  refine ⟨?_, hlen⟩
  rw [hinv.2.1, ← hlen]
  exact List.length_filter_le _ _

theorem c2_witness :
    countRunning (⟨[sampleJob], [none], []⟩ : SchedState).jobs ≤ 1 ∧
    (⟨[sampleJob], [none], []⟩ : SchedState).slots.length = 1 :=
  c2_running_jobs_bounded_by_slots
    (Relation.ReflTransGen.single
      (SchedStep.submit [] [none] [] sampleJob rfl (by intro k hk; simp at hk)))

/-- Claim C3: in every reachable state of the orchestration core, every
completed TrainingJob has exactly one registered ModelArtifact whose source
job id equals the job's id, and artifact registration is idempotent per job
id — a second register call with the same job id returns the artifact
created by the first call and leaves the registry unchanged. -/
theorem c3_one_artifact_per_completed_job :
    (∀ (n : Nat) (st : SchedState), SchedReachable n st →
        ∀ j ∈ st.jobs, j.status = JobStatus.completed →
          artifactCount st.artifacts j.id = 1) ∧
    (∀ (arts : List Model) (j : TrainingJob) (loc : String) (loss : ℚ)
        (j2 : TrainingJob) (loc2 : String) (loss2 : ℚ), j2.id = j.id →
        registerArtifact (registerArtifact arts j loc loss).2 j2 loc2 loss2 =
          ((registerArtifact arts j loc loss).1,
           (registerArtifact arts j loc loss).2)) := by
  constructor
  · intro n st hreach j hj hcomp
    exact (schedInv_reachable hreach).2.2.1 j.id ⟨j, hj, rfl, hcomp⟩
  · intro arts j loc loss j2 loc2 loss2 hid
    have hpred : (fun a : Model => a.training_job_id == j2.id)
        = (fun a : Model => a.training_job_id == j.id) := by
      funext a
      rw [hid]
    rcases hfind : arts.find? (fun a => a.training_job_id == j.id) with _ | a
    · have hbeq : (j.id == j2.id) = true := by
        simp [hid]
      simp [registerArtifact, hfind, hpred, List.find?_cons, hbeq]
    · simp [registerArtifact, hfind, hpred]

theorem c3_witness :
    registerArtifact (registerArtifact [] sampleJob "/adapters/0" 0).2
        sampleJob "/adapters/1" 1 =
      ((registerArtifact [] sampleJob "/adapters/0" 0).1,
       (registerArtifact [] sampleJob "/adapters/0" 0).2) :=
  c3_one_artifact_per_completed_job.2 [] sampleJob "/adapters/0" 0
    sampleJob "/adapters/1" 1 rfl

/-- Claim C4: recorded progress is monotonic — applying a progress update
whose step is smaller than the previously recorded one leaves the stored
`current_step` unchanged, both on the bare stored value and on a whole job
record, and delivering steps 5 then 3 to a fresh record leaves the stored
step at 5. -/
theorem c4_progress_updates_monotonic :
    (∀ stored incoming : Nat, incoming < stored →
        applyProgress stored incoming = stored) ∧
    (∀ (j : TrainingJob) (step : Nat), step < j.current_step →
        recordProgress j step = j) ∧
    applyProgress (applyProgress 0 5) 3 = 5 := by
  refine ⟨?_, ?_, rfl⟩
  · intro stored incoming h
    simp [applyProgress, h]
  · intro j step h
    simp [recordProgress, h]

theorem c4_witness : 3 < 5 ∧ applyProgress 5 3 = 5 :=
  ⟨by decide, c4_progress_updates_monotonic.1 5 3 (by decide)⟩

/-- Claim C5 (amended): training configuration values are validated on
submission against the constraints the new-job form enforces — epochs in
[1, 10]; learning rate in [0.00001, 0.01] and equal to 0.00001 plus an
integral multiple of the step 0.0001; LoRA rank in [4, 64]; LoRA alpha in
[8, 128]; a configuration violating these constraints is rejected before
any job-creation request is issued, and a configuration satisfying them is
not rejected by this validation. -/
theorem c5_form_validation_ranges (w : Workspace) (c : TrainingFormConfig) :
    (trainingFormValid c = true ↔
      (1 ≤ c.epochs ∧ c.epochs ≤ 10 ∧
       (1 : ℚ)/100000 ≤ c.learning_rate ∧ c.learning_rate ≤ (1 : ℚ)/100 ∧
       (∃ k : ℤ, c.learning_rate
          = (1 : ℚ)/100000 + (k : ℚ) * ((1 : ℚ)/10000)) ∧
       4 ≤ c.lora_r ∧ c.lora_r ≤ 64 ∧
       8 ≤ c.lora_alpha ∧ c.lora_alpha ≤ 128)) ∧
    (trainingFormValid c = false → submitTrainingForm (some w) c = none) ∧
    (trainingFormValid c = true →
      submitTrainingForm (some w) c = some { workspace_id := w.id, config := c }) := by
  have hstep : (((c.learning_rate - (1 : ℚ)/100000) * 10000).den = 1) ↔
      (∃ k : ℤ, c.learning_rate
        = (1 : ℚ)/100000 + (k : ℚ) * ((1 : ℚ)/10000)) := by
    rw [Rat.den_eq_one_iff]
    constructor
    · intro h
      exact ⟨((c.learning_rate - (1 : ℚ)/100000) * 10000).num, by linarith [h]⟩
    · rintro ⟨k, hk⟩
      have h2 : (c.learning_rate - (1 : ℚ)/100000) * 10000 = (k : ℚ) := by
        rw [hk]
        ring
      rw [h2, Rat.num_intCast]
  refine ⟨?_, ?_, ?_⟩
  · simp only [trainingFormValid, lrStepValid, Bool.and_eq_true, decide_eq_true_eq]
    rw [hstep]
    tauto
  · intro h
    simp [submitTrainingForm, h]
  · intro h
    simp [submitTrainingForm, h]

theorem c5_witness :
    trainingFormValid ⟨3, 21/100000, 16, 32⟩ = true ∧
    submitTrainingForm (some ⟨1, "Default Workspace"⟩) ⟨3, 21/100000, 16, 32⟩ =
      some { workspace_id := 1, config := ⟨3, 21/100000, 16, 32⟩ } := by
  have hv : trainingFormValid ⟨3, 21/100000, 16, 32⟩ = true :=
    (c5_form_validation_ranges ⟨1, "Default Workspace"⟩ ⟨3, 21/100000, 16, 32⟩).1.mpr
      ⟨by norm_num, by norm_num, by norm_num, by norm_num,
       ⟨2, by norm_num⟩, by norm_num, by norm_num, by norm_num, by norm_num⟩
  exact ⟨hv,
    (c5_form_validation_ranges ⟨1, "Default Workspace"⟩ ⟨3, 21/100000, 16, 32⟩).2.2 hv⟩

theorem c5_counterexample :
    specClaimedRankValid 256 = true ∧
    trainingFormValid ⟨3, 2/10000, 256, 32⟩ = false ∧
    submitTrainingForm (some ⟨1, "Default Workspace"⟩) ⟨3, 2/10000, 256, 32⟩
      = none := by
  have hv : trainingFormValid ⟨3, 2/10000, 256, 32⟩ = false := by
    norm_num [trainingFormValid]
  refine ⟨by decide, hv, ?_⟩
  simp [submitTrainingForm, hv]

theorem cacheUpdate_of_lookup_none {entries : List (Nat × CacheEntryState)} {id : Nat}
    (h : List.lookup id entries = none) (s : CacheEntryState) :
    cacheUpdate entries id s = entries := by
  induction entries with
  | nil => rfl
  | cons e rest ih =>
    obtain ⟨k, v⟩ := e
    rw [List.lookup] at h
    cases hbe : (id == k) with
    | true => rw [hbe] at h; cases h
    | false =>
      rw [hbe] at h
      have hk : (k == id) = false := by
        have : id ≠ k := by
          intro hkk
          rw [hkk] at hbe
          simp at hbe
        simp [Ne.symm this]
      simp only [cacheUpdate, List.map_cons]
      have htail := ih h
      simp only [cacheUpdate] at htail
      rw [htail, hk]
      simp

theorem arriveMany_pending {st0 : InferenceCache} {id : Nat}
    (h : cacheLookup st0.entries id = none) :
    ∀ k, 1 ≤ k →
      (arriveMany st0 id k).entries
          = (id, CacheEntryState.pendingLoad k) :: st0.entries ∧
      (arriveMany st0 id k).loadCount = st0.loadCount + 1 ∧
      (arriveMany st0 id k).served = st0.served := by
  intro k
  induction k with
  | zero => intro h0; exact absurd h0 (by decide)
  | succ m ih =>
    intro _
    cases Nat.eq_zero_or_pos m with
    | inl hm0 =>
      subst hm0
      simp [arriveMany, cacheResolveArrive, h]
    | inr hmpos =>
      obtain ⟨he, hl, hs⟩ := ih hmpos
      have hlook : cacheLookup (arriveMany st0 id m).entries id
          = some (CacheEntryState.pendingLoad m) := by
        rw [he]
        simp [cacheLookup, List.lookup]
      have hupd : cacheUpdate (arriveMany st0 id m).entries id
          (CacheEntryState.pendingLoad (m + 1))
          = (id, CacheEntryState.pendingLoad (m + 1)) :: st0.entries := by
        rw [he]
        simp only [cacheUpdate, List.map_cons]
        have htail := cacheUpdate_of_lookup_none h (CacheEntryState.pendingLoad (m + 1))
        simp only [cacheUpdate] at htail
        rw [htail]
        simp
      simp only [arriveMany, cacheResolveArrive, hlook]
      refine ⟨?_, ?_, ?_⟩
      · simp [hupd]
      · simp [hl]
      · simp [hs]

/-- Claim C6: concurrent resolve calls that all miss the inference cache
for the same unseen model id trigger exactly one load operation — the
first caller installs the pending placeholder and bumps the load counter
once, every later caller joins the placeholder's waiters without touching
the load counter, and once the single load completes all N callers have
returned successfully. -/
theorem c6_single_flight_loading {st0 : InferenceCache} {id : Nat}
    (h : cacheLookup st0.entries id = none) {n : Nat} (hn : 1 ≤ n) :
    (cacheLoadComplete (arriveMany st0 id n) id).loadCount = st0.loadCount + 1 ∧
    (cacheLoadComplete (arriveMany st0 id n) id).served = st0.served + n ∧
    (∀ k, 1 ≤ k → k ≤ n →
        (arriveMany st0 id k).loadCount = st0.loadCount + 1) := by
  obtain ⟨he, hl, hs⟩ := arriveMany_pending h n hn
  have hlook : cacheLookup (arriveMany st0 id n).entries id
      = some (CacheEntryState.pendingLoad n) := by
    rw [he]
    simp [cacheLookup, List.lookup]
  refine ⟨?_, ?_, ?_⟩
  · simp [cacheLoadComplete, hlook, hl]
  · simp [cacheLoadComplete, hlook, hs]
  · intro k hk1 _
    exact (arriveMany_pending h k hk1).2.1

theorem c6_witness :
    (cacheLoadComplete (arriveMany ⟨[], 0, 0⟩ 7 3) 7).loadCount = 0 + 1 ∧
    (cacheLoadComplete (arriveMany ⟨[], 0, 0⟩ 7 3) 7).served = 0 + 3 ∧
    (∀ k, 1 ≤ k → k ≤ 3 →
        (arriveMany (⟨[], 0, 0⟩ : InferenceCache) 7 k).loadCount = 0 + 1) :=
  @c6_single_flight_loading ⟨[], 0, 0⟩ 7 rfl 3 (by decide)

/-- Claim C7: deleting a ModelArtifact removes both the artifact record and
its stored payload, fails with `InUse` (surfaced as-is) when an inference
cache entry is currently serving the artifact, and never removes the
originating job records; the Models page mirrors a successful delete by
filtering the artifact out of its local list. -/
theorem c7_delete_artifact_lifecycle (st : ArtifactSystem) (id : Nat) :
    ((∃ a, st.artifacts.find? (fun m => m.id == id) = some a) →
        st.servingIds.contains id = true →
        deleteArtifact st id = Except.error ArtifactError.inUse) ∧
    (∀ st', deleteArtifact st id = Except.ok st' →
        (∀ m ∈ st'.artifacts, m.id ≠ id) ∧
        (∀ a, st.artifacts.find? (fun m => m.id == id) = some a →
            a.adapter_path ∉ st'.payloads) ∧
        st'.jobRecords = st.jobRecords) ∧
    (∀ models : List Model, ∀ m ∈ handleDeleteModels models id, m.id ≠ id) := by
  refine ⟨?_, ?_, ?_⟩
  · rintro ⟨a, ha⟩ hserve
    simp [deleteArtifact, ha]
    simpa using hserve
  · intro st' hok
    rcases hfind : st.artifacts.find? (fun m => m.id == id) with _ | a
    · simp [deleteArtifact, hfind] at hok
    · rw [deleteArtifact] at hok
      rw [hfind] at hok
      rcases hserve : st.servingIds.contains id with _ | _
      · rw [hserve] at hok
        simp only [if_false, Bool.false_eq_true, reduceIte, Except.ok.injEq] at hok
        subst hok
        refine ⟨?_, ?_, rfl⟩
        · intro m hm
          have := (List.mem_filter.1 hm).2
          simpa using this
        · intro a2 ha2
          rw [hfind] at ha2
          cases ha2
          intro hmem
          have := (List.mem_filter.1 hmem).2
          simp at this
      · rw [hserve] at hok
        simp at hok
  · intro models m hm
    have := (List.mem_filter.1 hm).2
    simpa using this

theorem c7_witness :
    deleteArtifact
        ⟨[⟨1, "m", "bm", 5, "/adapters/5", "t", 0, none⟩],
          ["/adapters/5"], [1], []⟩ 1
      = Except.error ArtifactError.inUse :=
  (c7_delete_artifact_lifecycle
      ⟨[⟨1, "m", "bm", 5, "/adapters/5", "t", 0, none⟩], ["/adapters/5"], [1], []⟩
      1).1 ⟨⟨1, "m", "bm", 5, "/adapters/5", "t", 0, none⟩, rfl⟩ rfl

/-- Claim C8: progress is observed by polling reads of the job list — the
Training page auto-refresh effect installs its fixed 2000 ms interval
exactly when at least one job in the client's list is pending, queued or
running, and installs no interval (polling stops) once every job is
terminal. -/
theorem c8_polling_iff_active_jobs (jobs : List TrainingJob) (w : Workspace) :
    (autoRefreshActive jobs (some w) = true ↔ ∃ j ∈ jobs, isActiveJob j = true) ∧
    ((∀ j ∈ jobs, isTerminalJob j = true) →
        autoRefreshActive jobs (some w) = false) ∧
    autoRefreshIntervalMs = 2000 := by
  refine ⟨?_, ?_, rfl⟩
  · simp [autoRefreshActive, hasActiveJobs, List.any_eq_true]
  · intro hterm
    simp only [autoRefreshActive, hasActiveJobs]
    simp only [Option.isNone_some, Bool.or_false, Bool.not_not, Bool.not_eq_true]
    rw [List.any_eq_false]
    intro j hj
    have := hterm j hj
    cases hstatus : j.status <;>
      simp [isActiveJob, isTerminalJob, hstatus] at this ⊢

theorem c8_witness :
    (autoRefreshActive [sampleJob] (some ⟨1, "Default Workspace"⟩) = true ↔
        ∃ j ∈ [sampleJob], isActiveJob j = true) ∧
    ((∀ j ∈ [sampleJob], isTerminalJob j = true) →
        autoRefreshActive [sampleJob] (some ⟨1, "Default Workspace"⟩) = false) ∧
    autoRefreshIntervalMs = 2000 :=
  c8_polling_iff_active_jobs [sampleJob] ⟨1, "Default Workspace"⟩

/-- Claim C9 (amended): while the stored auth token is JavaScript-falsy —
null or the empty string — the `ProtectedRoute` component renders a
replace-navigation to /login and does not render the protected children;
for any non-empty token it renders the children unchanged. -/
theorem c9_protected_route_token_guard :
    protectedRoute none = RouteRender.navigateToLogin true ∧
    protectedRoute (some "") = RouteRender.navigateToLogin true ∧
    (∀ t : String, t ≠ "" →
        protectedRoute (some t) = RouteRender.renderChildren) := by
  refine ⟨rfl, by decide, ?_⟩
  intro t ht
  have hf : jsFalsyString (some t) = false := by
    simp only [jsFalsyString]
    rw [← Bool.not_eq_true]
    intro hemp
    exact ht ((String.isEmpty_iff t).1 hemp)
  simp [protectedRoute, hf]

theorem c9_witness :
    protectedRoute none = RouteRender.navigateToLogin true ∧
    protectedRoute (some "") = RouteRender.navigateToLogin true ∧
    protectedRoute (some "token123") = RouteRender.renderChildren :=
  ⟨c9_protected_route_token_guard.1, c9_protected_route_token_guard.2.1,
    c9_protected_route_token_guard.2.2 "token123" (by decide)⟩

theorem c9_counterexample :
    (some "" : Option String) ≠ none ∧
    protectedRoute (some "") ≠ RouteRender.renderChildren := by
  refine ⟨by simp, by decide⟩

/-- Claim C10 (amended): with a non-null workspace, a drop on the dataset
drop zone issues an upload request exactly when the dropped file exists and
its name ends with ".jsonl"; with a null workspace `handleUpload` returns
before issuing any request; in every case the drop handler leaves the
dataset list unchanged. -/
theorem c10_drop_uploads_only_jsonl (w : Workspace) (files : List DropFile)
    (datasets : List Dataset) :
    ((handleDrop (some w) files datasets).1 ≠ none ↔
      ∃ f, files.head? = some f ∧ strEndsWith f.name ".jsonl" = true) ∧
    (∀ workspace : Option Workspace,
        (handleDrop workspace files datasets).2 = datasets) := by
  constructor
  · cases files with
    | nil => simp [handleDrop]
    | cons f fs =>
      by_cases h : strEndsWith f.name ".jsonl" = true
      · simp [handleDrop, h, handleUpload]
      · simp [handleDrop, h]
  · intro workspace
    cases files with
    | nil => rfl
    | cons f fs =>
      by_cases h : strEndsWith f.name ".jsonl" = true <;>
        simp [handleDrop, h]

theorem c10_witness :
    ((handleDrop (some ⟨1, "Default Workspace"⟩) [⟨"qa-pairs.jsonl"⟩] []).1 ≠ none ↔
      ∃ f, ([⟨"qa-pairs.jsonl"⟩] : List DropFile).head? = some f ∧
        strEndsWith f.name ".jsonl" = true) ∧
    (∀ workspace : Option Workspace,
        (handleDrop workspace [⟨"qa-pairs.jsonl"⟩] []).2 = ([] : List Dataset)) :=
  c10_drop_uploads_only_jsonl ⟨1, "Default Workspace"⟩ [⟨"qa-pairs.jsonl"⟩] []

theorem c10_counterexample :
    strEndsWith "data.jsonl" ".jsonl" = true ∧
    handleDrop none [⟨"data.jsonl"⟩] [] = (none, []) := by
  refine ⟨by decide, by decide⟩
